import Mathlib

/-!
Verification of the flowhttp routing core: a shallow embedding of the
route registration, pattern compilation, resolution and middleware
composition code, followed by theorems settling the specification claims.

Sources embedded:
- flow.go: Branch, Flow, NewFlow, Branch.Fork, Branch.ClearSteps, Branch.Stream
- routing (part 003): stream, streamMethods, dynamicStream, convertPathToRegex,
  Flow.getStreamMethodsForPath
- server (part 000): Flow.ServeHTTP dispatch logic and the chain-building loop
- middleware (part 003 head): Step, Sink, CreateStep
-/

namespace FlowHttp

/-! ## Pattern compiler (convertPathToRegex)

The Go code builds a regular expression string from the route template:
every token of the form colon-then-identifier (identifier characters are
a-z A-Z 0-9 underscore, matched greedily) is replaced by a named capture
group for one-or-more non-slash characters, every star character is
replaced by dot-star, and the result is anchored at both ends.

We embed the compiled regex as a token list: a literal character token, a
named parameter token (one-or-more non-slash characters, captured), and a
wildcard token (dot-star: any characters including slash).  A literal
token matches exactly its character; the Go code performs no escaping of
regex metacharacters in literal path text, so the embedding is faithful
for paths whose literal characters are not regex metacharacters (the
spec documents the no-escaping behavior as out of scope).
-/

inductive RegTok where
  | lit (c : Char)
  | param (name : String)
  | wild
deriving DecidableEq

def isParamTok : RegTok → Bool
  | RegTok.param _ => true
  | _ => false

/-- Character class of the Go identifier regex: a-z A-Z 0-9 underscore. -/
def isWordChar (c : Char) : Bool := c.isAlphanum || c == '_'

/-- Maximal leading run of identifier characters, with the remainder. -/
def takeWordRun : List Char → List Char × List Char
  | [] => ([], [])
  | c :: cs =>
    if isWordChar c then
      let p := takeWordRun cs
      (c :: p.1, p.2)
    else ([], c :: cs)

theorem takeWordRun_snd_length (l : List Char) : (takeWordRun l).2.length ≤ l.length := by
  induction l with
  | nil => simp [takeWordRun]
  | cons c cs ih =>
    simp only [takeWordRun]
    by_cases h : isWordChar c
    · simp only [h, if_true]
      exact Nat.le_succ_of_le ih
    · simp [h]

/-- Fuel-indexed tokenizer; the fuel makes the recursion structural so
that concrete instances reduce inside the kernel.  With fuel at least the
length of the input it computes the token list of the compiled regex. -/
def tokenizeFuel : Nat → List Char → List RegTok
  | 0, _ => []
  | _ + 1, [] => []
  | fuel + 1, c :: cs =>
    if c == '*' then RegTok.wild :: tokenizeFuel fuel cs
    else if c == ':' then
      match takeWordRun cs with
      | ([], _) => RegTok.lit ':' :: tokenizeFuel fuel cs
      | (a :: as, rest) => RegTok.param (String.mk (a :: as)) :: tokenizeFuel fuel rest
    else RegTok.lit c :: tokenizeFuel fuel cs

def tokenize (l : List Char) : List RegTok := tokenizeFuel l.length l

/-- convertPathToRegex: compiled pattern plus hasParams.  The Go code
computes hasParams by testing the original path against the identifier
regex, which holds exactly when the token list contains a param token. -/
def convertPathToRegex (path : String) : List RegTok × Bool :=
  (tokenize path.data, (tokenize path.data).any isParamTok)

/-! ## Matching semantics of the compiled pattern

The compiled regex is anchored, so matching consumes the entire path.
A param token corresponds to the regex class one-or-more-non-slash; a
wildcard corresponds to dot-star.  Capture extraction follows the greedy
preference order of the Go regexp engine: each quantified group prefers
the longest split, earlier groups first.
-/

/-- Maximal leading run of non-slash characters, with the remainder. -/
def nonSlashRun : List Char → List Char × List Char
  | [] => ([], [])
  | c :: cs =>
    if c == '/' then ([], c :: cs)
    else
      let p := nonSlashRun cs
      (c :: p.1, p.2)

/-- All splits (a, b) of s where a is a nonempty run of non-slash
characters, longest a first (greedy order of one-or-more-non-slash). -/
def paramSplits (s : List Char) : List (List Char × List Char) :=
  let k := (nonSlashRun s).1.length
  (List.range k).map fun i => (s.take (k - i), s.drop (k - i))

/-- All suffixes of s reachable by dot-star, longest consumption first. -/
def wildSplits (s : List Char) : List (List Char) :=
  (List.range (s.length + 1)).map fun i => s.drop (s.length - i)

/-- Whether the anchored pattern matches the whole path (MatchString). -/
def tokMatch : List RegTok → List Char → Bool
  | [], s => s.isEmpty
  | RegTok.lit c :: ts, s =>
    match s with
    | [] => false
    | c' :: s' => c == c' && tokMatch ts s'
  | RegTok.param _ :: ts, s => (paramSplits s).any fun pr => tokMatch ts pr.2
  | RegTok.wild :: ts, s => (wildSplits s).any fun r => tokMatch ts r

/-- Named-capture extraction (FindStringSubmatch with SubexpNames),
greedy preference order, captures listed in order of appearance. -/
def tokCaptures : List RegTok → List Char → Option (List (String × String))
  | [], s => if s.isEmpty then some [] else none
  | RegTok.lit c :: ts, s =>
    match s with
    | [] => none
    | c' :: s' => if c == c' then tokCaptures ts s' else none
  | RegTok.param n :: ts, s =>
    (paramSplits s).findSome? fun pr =>
      (tokCaptures ts pr.2).map fun ps => (n, String.mk pr.1) :: ps
  | RegTok.wild :: ts, s =>
    (wildSplits s).findSome? fun r => tokCaptures ts r

/-! ## Middleware chain (Step, Sink, CreateStep, ServeHTTP loop)

A Go Sink is an imperative procedure on the request context; we embed it
as a state transformer.  A Step receives the next Sink and returns a
Sink, exactly as in the source.
-/

def Sink (σ : Type) : Type := σ → σ

def Step (σ : Type) : Type := Sink σ → Sink σ

/-- CreateStep from the middleware source: wraps a (next, ctx) function. -/
def CreateStep {σ : Type} (fn : Sink σ → σ → σ) : Step σ := fun next ctx => fn next ctx

/-- The chain-building loop of ServeHTTP: sink := steps[i](sink) for i
from the last index down to 0, so the first step is outermost. -/
def buildChain {σ : Type} (steps : List (Step σ)) (sink : Sink σ) : Sink σ :=
  steps.foldr (fun st acc => st acc) sink

/-- A middleware with pre-logic and post-logic around its call to next. -/
def wrapStep {σ : Type} (pre post : σ → σ) : Step σ :=
  CreateStep fun next ctx => post (next (pre ctx))

/-- A short-circuiting middleware: runs its body and never calls next. -/
def scStep {σ : Type} (body : σ → σ) : Step σ :=
  CreateStep fun _ ctx => body ctx

/-! ## Route table state (Flow) and branches

Go keeps streamMethods values behind pointers: the static map and the
dynamic list both store pointers, and registration mutates the pointed-to
value.  We embed the pointer heap explicitly: heap is the list of
allocated streamMethods records and both registries store indices into
it, so aliasing between the static map and the dynamic list is preserved.
St is the type of middleware steps, Sk the type of sinks (kept abstract:
registration and resolution never inspect them).
-/

structure stream (St Sk : Type) where
  steps : List St
  sink : Sk
deriving DecidableEq

structure StreamMethods (St Sk : Type) where
  GET : Option (stream St Sk)
  POST : Option (stream St Sk)
deriving DecidableEq

structure Flow (St Sk : Type) where
  streams : List (String × Nat)
  dynamicStreams : List (List RegTok × Nat × Bool)
  heap : List (StreamMethods St Sk)
deriving DecidableEq

structure Branch (St : Type) where
  path : String
  steps : List St
deriving DecidableEq

/-- Lookup in the static map (Go map read; keys are unique). -/
def mapLookup (m : List (String × Nat)) (k : String) : Option Nat :=
  match m with
  | [] => none
  | (k', v) :: rest => if k' = k then some v else mapLookup rest k

/-- Write to the static map (Go map assignment: replace or add). -/
def mapInsert (m : List (String × Nat)) (k : String) (v : Nat) : List (String × Nat) :=
  match m with
  | [] => [(k, v)]
  | (k', v') :: rest => if k' = k then (k, v) :: rest else (k', v') :: mapInsert rest k v

def heapGet {St Sk : Type} (h : List (StreamMethods St Sk)) (a : Nat) : StreamMethods St Sk :=
  (h.get? a).getD ⟨none, none⟩

/-- NewFlow: empty static map, empty dynamic list, nothing allocated. -/
def emptyFlow {St Sk : Type} : Flow St Sk := ⟨[], [], []⟩

/-- The root branch owned by a fresh Flow: empty prefix, no steps. -/
def rootBranch {St : Type} : Branch St := ⟨"", []⟩

/-- Branch.Fork: the literal slash prefix becomes the empty string; the
child path is parent.path plus the prefix and the child steps are the
parent steps with the new steps appended. -/
def Branch.Fork {St : Type} (b : Branch St) (path : String) (steps : List St) : Branch St :=
  let p := if path = "/" then "" else path
  ⟨b.path ++ p, b.steps ++ steps⟩

/-- Branch.ClearSteps: drops the accumulated steps of this branch (the
Go method mutates the receiver in place and returns it; here the updated
branch value is returned). -/
def Branch.ClearSteps {St : Type} (b : Branch St) : Branch St := ⟨b.path, []⟩

/-- The method switch of Branch.Stream: GET and POST set the matching
field of the streamMethods record; any other method panics (none).  In
the source the panic fires inside the switch, before the record is
linked into either registry and before any field assignment. -/
def setMethod {St Sk : Type} (method : String) (h : stream St Sk) :
    Option (StreamMethods St Sk → StreamMethods St Sk) :=
  if method = "GET" then some fun m => { m with GET := some h }
  else if method = "POST" then some fun m => { m with POST := some h }
  else none

/-- Branch.Stream: registration.  finalPath is the branch prefix plus the
subpath; finalSteps are the branch steps plus the extra steps.  The
streamMethods record is fetched from the static map when the key exists
(so a dynamic registration for a string that already has a static entry
mutates that shared record), otherwise freshly allocated.  The dynamic
classification tests the original subpath, not finalPath, for colon or
star; a dynamic registration appends the compiled finalPath pattern and
the record to the dynamic list and does not write the static map, a
static one writes the static map and leaves the dynamic list alone.
Returns the new flow and true, or on panic the unchanged flow and false.
-/
def Branch.Stream {St Sk : Type} (f : Flow St Sk) (b : Branch St) (method : String)
    (path : String) (steps : List St) (sink : Sk) : Flow St Sk × Bool :=
  let finalPath := b.path ++ path
  let finalSteps := b.steps ++ steps
  let h : stream St Sk := ⟨finalSteps, sink⟩
  match setMethod method h with
  | none => (f, false)
  | some setter =>
    let addr := (mapLookup f.streams finalPath).getD f.heap.length
    let heap0 :=
      match mapLookup f.streams finalPath with
      | some _ => f.heap
      | none => f.heap ++ [(⟨none, none⟩ : StreamMethods St Sk)]
    let heap1 := heap0.set addr (setter (heapGet heap0 addr))
    if path.data.contains ':' || path.data.contains '*' then
      let pr := convertPathToRegex finalPath
      ({ streams := f.streams,
         dynamicStreams := f.dynamicStreams ++ [(pr.1, addr, pr.2)],
         heap := heap1 }, true)
    else
      ({ streams := mapInsert f.streams finalPath addr,
         dynamicStreams := f.dynamicStreams,
         heap := heap1 }, true)

/-! ## Resolution and dispatch -/

/-- The dynamic scan of getStreamMethodsForPath: first pattern in
registration order that matches wins; params are extracted only when the
entry has path params, otherwise the empty mapping is returned. -/
def findDynEntry (dyns : List (List RegTok × Nat × Bool)) (path : List Char) :
    Option (Nat × List (String × String)) :=
  dyns.findSome? fun d =>
    if tokMatch d.1 path then
      some (d.2.1, if d.2.2 then (tokCaptures d.1 path).getD [] else [])
    else none

/-- Flow.getStreamMethodsForPath: static map first (exact key, no
pattern evaluated), then the dynamic list in registration order; none
models the no-route-found error. -/
def getStreamMethodsForPath {St Sk : Type} (f : Flow St Sk) (path : String) :
    Option (StreamMethods St Sk × List (String × String)) :=
  match mapLookup f.streams path with
  | some a => some (heapGet f.heap a, [])
  | none => (findDynEntry f.dynamicStreams path.data).map fun p => (heapGet f.heap p.1, p.2)

inductive DispatchResult (St Sk : Type) where
  | notFound
  | methodNotAllowed
  | ok (s : stream St Sk) (params : List (String × String))
deriving DecidableEq

/-- Flow.ServeHTTP, up to the point where the chain is built: resolve the
path (failure reports NotFound); switch on the method, any method other
than GET and POST reports MethodNotAllowed; a missing per-method entry
reports NotFound.  Otherwise the selected stream and the extracted
params drive the chain build. -/
def serveHTTP {St Sk : Type} (f : Flow St Sk) (method path : String) :
    DispatchResult St Sk :=
  match getStreamMethodsForPath f path with
  | none => DispatchResult.notFound
  | some (m, params) =>
    if method = "GET" then
      match m.GET with
      | some s => DispatchResult.ok s params
      | none => DispatchResult.notFound
    else if method = "POST" then
      match m.POST with
      | some s => DispatchResult.ok s params
      | none => DispatchResult.notFound
    else DispatchResult.methodNotAllowed

/-! ## Concrete route tables used as test inputs -/

/-- A flow with a single static route: POST /login, sink 5. -/
def exLogin : Flow Nat Nat := (Branch.Stream emptyFlow rootBranch "POST" "/login" [] 5).1

/-- A flow where GET and POST were both registered for the dynamic path
/user/:id, sinks 1 and 2, from the root branch. -/
def exUserBoth : Flow Nat Nat :=
  (Branch.Stream (Branch.Stream emptyFlow rootBranch "GET" "/user/:id" [] 1).1
    rootBranch "POST" "/user/:id" [] 2).1

/-- A branch whose accumulated prefix is the literal string /x/:id. -/
def exShadowBranch : Branch Nat := Branch.Fork rootBranch "/x/:id" []

/-- A flow with a static entry whose key is the literal string /x/:id
(registered with the empty subpath, hence classified static), sink 1. -/
def exShadowStatic : Flow Nat Nat := (Branch.Stream emptyFlow exShadowBranch "GET" "" [] 1).1

/-- exShadowStatic after a dynamic registration of GET /x/:id, sink 2,
from the root branch: same literal final path, classified dynamic. -/
def exShadowBoth : Flow Nat Nat := (Branch.Stream exShadowStatic rootBranch "GET" "/x/:id" [] 2).1

/-! ## General helper lemmas -/

theorem findSome_eq_some {α β : Type _} {l : List α} {g : α → Option β} {b : β}
    (h : l.findSome? g = some b) : ∃ a ∈ l, g a = some b := by
  induction l with
  | nil => simp [List.findSome?] at h
  | cons x xs ih =>
    rw [List.findSome?] at h
    cases hx : g x with
    | some v =>
      rw [hx] at h
      exact ⟨x, List.mem_cons_self x xs, hx.trans h⟩
    | none =>
      rw [hx] at h
      obtain ⟨a, ha, hga⟩ := ih h
      exact ⟨a, List.mem_cons_of_mem x ha, hga⟩

theorem mapLookup_insert_self (m : List (String × Nat)) (k : String) (v : Nat) :
    mapLookup (mapInsert m k v) k = some v := by
  induction m with
  | nil => simp [mapInsert, mapLookup]
  | cons p rest ih =>
    by_cases h : p.1 = k
    · simp [mapInsert, mapLookup, h]
    · simp [mapInsert, mapLookup, h, ih]

theorem mapLookup_single_ne {k1 k2 : String} (hne : k1 ≠ k2) (v : Nat) :
    mapLookup [(k1, v)] k2 = none := by
  simp [mapLookup, hne]

theorem mapInsert_single_ne {k1 k2 : String} (hne : k1 ≠ k2) (v1 v2 : Nat) :
    mapInsert [(k1, v1)] k2 v2 = [(k1, v1), (k2, v2)] := by
  simp [mapInsert, hne]

theorem heapGet_set_self {St Sk : Type} (l : List (StreamMethods St Sk)) (a : Nat)
    (m : StreamMethods St Sk) (h : a < l.length) : heapGet (l.set a m) a = m := by
  induction l generalizing a with
  | nil => simp at h
  | cons x xs ih =>
    cases a with
    | zero => simp [heapGet, List.set]
    | succ a' =>
      simp only [List.length_cons, Nat.succ_lt_succ_iff] at h
      simpa [heapGet, List.set, List.get?] using ih a' h

theorem heapGet_append_self {St Sk : Type} (l : List (StreamMethods St Sk))
    (m : StreamMethods St Sk) : heapGet (l ++ [m]) l.length = m := by
  induction l with
  | nil => simp [heapGet]
  | cons x xs ih => simp only [List.cons_append, List.length_cons, heapGet, List.get?]; exact ih

theorem length_set_eq {α : Type _} (l : List α) (a : Nat) (m : α) :
    (l.set a m).length = l.length := List.length_set l a m

theorem setMethod_get {St Sk : Type} (h : stream St Sk) :
    setMethod "GET" h = some fun m => { m with GET := some h } := rfl

theorem setMethod_post {St Sk : Type} (h : stream St Sk) :
    setMethod "POST" h = some fun m => { m with POST := some h } := rfl

/-! Registration equations: the four observable cases of Branch.Stream
for a supported method, by classification and by presence of the final
path in the static map. -/

theorem stream_dyn_some {St Sk : Type} (f : Flow St Sk) (b : Branch St) (method p : String)
    (steps : List St) (sink : Sk) (setter : StreamMethods St Sk → StreamMethods St Sk) (a : Nat)
    (hset : setMethod method ⟨b.steps ++ steps, sink⟩ = some setter)
    (hcl : (p.data.contains ':' || p.data.contains '*') = true)
    (hlk : mapLookup f.streams (b.path ++ p) = some a) :
    Branch.Stream f b method p steps sink
      = (⟨f.streams,
          f.dynamicStreams ++ [((convertPathToRegex (b.path ++ p)).1, a,
            (convertPathToRegex (b.path ++ p)).2)],
          f.heap.set a (setter (heapGet f.heap a))⟩, true) := by
  simp only [Branch.Stream, hset]
  rw [if_pos hcl]
  simp [hlk]

theorem stream_dyn_none {St Sk : Type} (f : Flow St Sk) (b : Branch St) (method p : String)
    (steps : List St) (sink : Sk) (setter : StreamMethods St Sk → StreamMethods St Sk)
    (hset : setMethod method ⟨b.steps ++ steps, sink⟩ = some setter)
    (hcl : (p.data.contains ':' || p.data.contains '*') = true)
    (hlk : mapLookup f.streams (b.path ++ p) = none) :
    Branch.Stream f b method p steps sink
      = (⟨f.streams,
          f.dynamicStreams ++ [((convertPathToRegex (b.path ++ p)).1, f.heap.length,
            (convertPathToRegex (b.path ++ p)).2)],
          (f.heap ++ [(⟨none, none⟩ : StreamMethods St Sk)]).set f.heap.length
            (setter ⟨none, none⟩)⟩, true) := by
  simp only [Branch.Stream, hset]
  rw [if_pos hcl]
  simp only [hlk, Option.getD_none]
  rw [heapGet_append_self]

theorem stream_static_some {St Sk : Type} (f : Flow St Sk) (b : Branch St) (method p : String)
    (steps : List St) (sink : Sk) (setter : StreamMethods St Sk → StreamMethods St Sk) (a : Nat)
    (hset : setMethod method ⟨b.steps ++ steps, sink⟩ = some setter)
    (hcl : (p.data.contains ':' || p.data.contains '*') = false)
    (hlk : mapLookup f.streams (b.path ++ p) = some a) :
    Branch.Stream f b method p steps sink
      = (⟨mapInsert f.streams (b.path ++ p) a,
          f.dynamicStreams,
          f.heap.set a (setter (heapGet f.heap a))⟩, true) := by
  simp only [Branch.Stream, hset]
  rw [if_neg (by rw [hcl]; exact Bool.false_ne_true :
    ¬(p.data.contains ':' || p.data.contains '*') = true)]
  simp [hlk]

theorem stream_static_none {St Sk : Type} (f : Flow St Sk) (b : Branch St) (method p : String)
    (steps : List St) (sink : Sk) (setter : StreamMethods St Sk → StreamMethods St Sk)
    (hset : setMethod method ⟨b.steps ++ steps, sink⟩ = some setter)
    (hcl : (p.data.contains ':' || p.data.contains '*') = false)
    (hlk : mapLookup f.streams (b.path ++ p) = none) :
    Branch.Stream f b method p steps sink
      = (⟨mapInsert f.streams (b.path ++ p) f.heap.length,
          f.dynamicStreams,
          (f.heap ++ [(⟨none, none⟩ : StreamMethods St Sk)]).set f.heap.length
            (setter ⟨none, none⟩)⟩, true) := by
  simp only [Branch.Stream, hset]
  rw [if_neg (by rw [hcl]; exact Bool.false_ne_true :
    ¬(p.data.contains ':' || p.data.contains '*') = true)]
  simp only [hlk, Option.getD_none]
  rw [heapGet_append_self]

/-! Tokenizer lemmas: the fuel argument is irrelevant once it covers the
input length, and the tokenizer maps plain literal text, the star, and a
colon-led identifier run to the corresponding tokens. -/

theorem tokenizeFuel_congr : ∀ (n : Nat) (l : List Char), l.length ≤ n →
    ∀ f1 f2 : Nat, l.length ≤ f1 → l.length ≤ f2 → tokenizeFuel f1 l = tokenizeFuel f2 l := by
  intro n
  induction n with
  | zero =>
    intro l hl f1 f2 _ _
    have hnil : l = [] := List.length_eq_zero.mp (Nat.le_zero.mp hl)
    subst hnil
    cases f1 <;> cases f2 <;> rfl
  | succ n ih =>
    intro l hl f1 f2 h1 h2
    cases l with
    | nil => cases f1 <;> cases f2 <;> rfl
    | cons c cs =>
      cases f1 with
      | zero => simp at h1
      | succ a =>
        cases f2 with
        | zero => simp at h2
        | succ b =>
          have hcs : cs.length ≤ n := by simp only [List.length_cons] at hl; omega
          have ha : cs.length ≤ a := by simp only [List.length_cons] at h1; omega
          have hb : cs.length ≤ b := by simp only [List.length_cons] at h2; omega
          simp only [tokenizeFuel]
          by_cases hstar : (c == '*') = true
          · rw [if_pos hstar, if_pos hstar, ih cs hcs a b ha hb]
          · rw [if_neg hstar, if_neg hstar]
            by_cases hcolon : (c == ':') = true
            · rw [if_pos hcolon, if_pos hcolon]
              rcases htw : takeWordRun cs with ⟨run, rest⟩
              cases run with
              | nil => simp only [ih cs hcs a b ha hb]
              | cons a0 as =>
                have hrest : rest.length ≤ cs.length := by
                  have h := takeWordRun_snd_length cs
                  rw [htw] at h
                  exact h
                simp only [ih rest (le_trans hrest hcs) a b
                  (le_trans hrest ha) (le_trans hrest hb)]
            · rw [if_neg hcolon, if_neg hcolon, ih cs hcs a b ha hb]

theorem tokenize_cons_star (cs : List Char) :
    tokenize ('*' :: cs) = RegTok.wild :: tokenize cs := rfl

theorem tokenize_cons_lit (c : Char) (cs : List Char) (h1 : ¬c = '*') (h2 : ¬c = ':') :
    tokenize (c :: cs) = RegTok.lit c :: tokenize cs := by
  show tokenizeFuel (cs.length + 1) (c :: cs) = _
  simp only [tokenizeFuel]
  rw [if_neg (by simp [h1]), if_neg (by simp [h2])]
  rfl

theorem tokenize_cons_colon_run (cs : List Char) (a0 : Char) (as rest : List Char)
    (htw : takeWordRun cs = (a0 :: as, rest)) :
    tokenize (':' :: cs) = RegTok.param (String.mk (a0 :: as)) :: tokenize rest := by
  show tokenizeFuel (cs.length + 1) (':' :: cs) = _
  simp only [tokenizeFuel]
  rw [if_neg (by decide), if_pos (by decide)]
  simp only [htw]
  have hrest : rest.length ≤ cs.length := by
    have h := takeWordRun_snd_length cs
    rw [htw] at h
    exact h
  rw [tokenizeFuel_congr rest.length rest (le_refl _) cs.length rest.length hrest (le_refl _)]
  rfl

theorem tokenize_lits_append (L r : List Char) (h : ∀ c ∈ L, ¬c = ':' ∧ ¬c = '*') :
    tokenize (L ++ r) = L.map RegTok.lit ++ tokenize r := by
  induction L with
  | nil => rfl
  | cons c cs ih =>
    have hc := h c (List.mem_cons_self c cs)
    rw [List.cons_append, tokenize_cons_lit c _ hc.2 hc.1,
      ih fun x hx => h x (List.mem_cons_of_mem c hx)]
    rfl

theorem takeWordRun_word_append (name post : List Char)
    (hw : ∀ c ∈ name, isWordChar c = true)
    (hp : post = [] ∨ ∃ c cs, post = c :: cs ∧ isWordChar c = false) :
    takeWordRun (name ++ post) = (name, post) := by
  induction name with
  | nil =>
    rw [List.nil_append]
    rcases hp with rfl | ⟨c, cs, rfl, hc⟩
    · rfl
    · simp [takeWordRun, hc]
  | cons c cs ih =>
    have hc := hw c (List.mem_cons_self c cs)
    rw [List.cons_append]
    simp only [takeWordRun, hc, if_true]
    rw [ih fun x hx => hw x (List.mem_cons_of_mem c hx)]

/-! Lemmas for the non-slash run and the greedy split lists. -/

theorem nonSlashRun_append (s : List Char) :
    (nonSlashRun s).1 ++ (nonSlashRun s).2 = s := by
  induction s with
  | nil => rfl
  | cons c cs ih =>
    simp only [nonSlashRun]
    split
    · rfl
    · simp only [List.cons_append, ih]

theorem nonSlashRun_no_slash (s : List Char) : ∀ c ∈ (nonSlashRun s).1, ¬c = '/' := by
  induction s with
  | nil => intro c hc; simp [nonSlashRun] at hc
  | cons d cs ih =>
    intro c hc
    simp only [nonSlashRun] at hc
    by_cases hd : (d == '/') = true
    · rw [if_pos hd] at hc
      simp at hc
    · rw [if_neg hd] at hc
      rcases List.mem_cons.mp hc with rfl | hmem
      · intro hcon
        exact hd (by simp [hcon])
      · exact ih c hmem

theorem nonSlashRun_shape (seg post : List Char) (hs : ∀ c ∈ seg, ¬c = '/')
    (hp : post = [] ∨ ∃ p', post = '/' :: p') :
    nonSlashRun (seg ++ post) = (seg, post) := by
  induction seg with
  | nil =>
    rw [List.nil_append]
    rcases hp with rfl | ⟨p', rfl⟩
    · rfl
    · simp [nonSlashRun]
  | cons c cs ih =>
    have hc : ¬c = '/' := hs c (List.mem_cons_self c cs)
    rw [List.cons_append]
    simp only [nonSlashRun]
    rw [if_neg (by simp [hc])]
    rw [ih fun x hx => hs x (List.mem_cons_of_mem c hx)]

theorem paramSplits_shape (seg post : List Char) (hne : seg ≠ [])
    (hs : ∀ c ∈ seg, ¬c = '/') (hp : post = [] ∨ ∃ p', post = '/' :: p') :
    ∃ rest, paramSplits (seg ++ post) = (seg, post) :: rest := by
  simp only [paramSplits]
  rw [nonSlashRun_shape seg post hs hp]
  obtain ⟨c, cs, rfl⟩ : ∃ c cs, seg = c :: cs := by
    cases seg with
    | nil => exact absurd rfl hne
    | cons c cs => exact ⟨c, cs, rfl⟩
  rw [List.length_cons, List.range_succ_eq_map, List.map_cons]
  have htake : ((c :: cs) ++ post).take (cs.length + 1) = c :: cs := by
    have h := List.take_left (c :: cs) post
    rwa [List.length_cons] at h
  have hdrop : ((c :: cs) ++ post).drop (cs.length + 1) = post := by
    have h := List.drop_left (c :: cs) post
    rwa [List.length_cons] at h
  refine ⟨List.map
    (fun i => (((c :: cs) ++ post).take (cs.length + 1 - i),
      ((c :: cs) ++ post).drop (cs.length + 1 - i)))
    (List.map Nat.succ (List.range cs.length)), ?_⟩
  rw [Nat.sub_zero, htake, hdrop]

theorem paramSplits_mem_sound (s : List Char) (pr : List Char × List Char)
    (h : pr ∈ paramSplits s) : pr.1 ≠ [] ∧ ∀ c ∈ pr.1, ¬c = '/' := by
  simp only [paramSplits] at h
  obtain ⟨i, hi, rfl⟩ := List.mem_map.mp h
  rw [List.mem_range] at hi
  dsimp only
  have hk_le : (nonSlashRun s).1.length ≤ s.length := by
    have h2 := congrArg List.length (nonSlashRun_append s)
    rw [List.length_append] at h2
    omega
  have hrun : s.take (nonSlashRun s).1.length = (nonSlashRun s).1 := by
    have h2 := List.take_left (nonSlashRun s).1 (nonSlashRun s).2
    rwa [nonSlashRun_append s] at h2
  constructor
  · have hlen : (s.take ((nonSlashRun s).1.length - i)).length
        = (nonSlashRun s).1.length - i := by
      rw [List.length_take]
      omega
    intro hnil
    rw [hnil] at hlen
    simp at hlen
    omega
  · intro c hc
    have hsub : s.take ((nonSlashRun s).1.length - i)
        = (s.take (nonSlashRun s).1.length).take ((nonSlashRun s).1.length - i) := by
      rw [List.take_take]
      congr 1
      omega
    rw [hsub, hrun] at hc
    exact nonSlashRun_no_slash s c (List.take_subset _ _ hc)

theorem findSome_cons_of_some {α β : Type _} (g : α → Option β) (x : α) (xs : List α)
    (b : β) (h : g x = some b) : (x :: xs).findSome? g = some b := by
  simp [List.findSome?, h]

/-! Matching and capture extraction over the token shapes produced by the
compiler: leading literal tokens consume the equal literal text. -/

theorem tokMatch_lits (L : List Char) (ts : List RegTok) (s : List Char) :
    tokMatch (L.map RegTok.lit ++ ts) (L ++ s) = tokMatch ts s := by
  induction L with
  | nil => rfl
  | cons c cs ih =>
    simp only [List.map_cons, List.cons_append, tokMatch, List.append_eq]
    rw [ih]
    simp

theorem tokCaptures_lits (L : List Char) (ts : List RegTok) (s : List Char) :
    tokCaptures (L.map RegTok.lit ++ ts) (L ++ s) = tokCaptures ts s := by
  induction L with
  | nil => rfl
  | cons c cs ih =>
    simp only [List.map_cons, List.cons_append, tokCaptures]
    rw [if_pos (by simp : (c == c) = true)]
    exact ih

theorem lits_no_param (L : List Char) : (L.map RegTok.lit).any isParamTok = false := by
  induction L with
  | nil => rfl
  | cons c cs ih => simp [isParamTok, ih]

/-- Every value captured by the compiled pattern comes from a param
group, hence is a nonempty run of non-slash characters. -/
theorem tokCaptures_sound : ∀ (ts : List RegTok) (s : List Char)
    (ps : List (String × String)) (nv : String × String),
    tokCaptures ts s = some ps → nv ∈ ps → nv.2.data ≠ [] ∧ ∀ c ∈ nv.2.data, ¬c = '/' := by
  intro ts
  induction ts with
  | nil =>
    intro s ps nv h hnv
    simp only [tokCaptures] at h
    split at h
    · cases h
      simp at hnv
    · cases h
  | cons t ts ih =>
    intro s ps nv h hnv
    cases t with
    | lit c =>
      cases s with
      | nil => simp [tokCaptures] at h
      | cons c' s' =>
        simp only [tokCaptures] at h
        split at h
        · exact ih s' ps nv h hnv
        · cases h
    | param n =>
      simp only [tokCaptures] at h
      obtain ⟨pr, hmem, hpr⟩ := findSome_eq_some h
      cases htc : tokCaptures ts pr.2 with
      | none => rw [htc] at hpr; cases hpr
      | some ps' =>
        rw [htc] at hpr
        simp only [Option.map_some'] at hpr
        have hps : (n, String.mk pr.1) :: ps' = ps := by
          injection hpr
        rw [← hps] at hnv
        rcases List.mem_cons.mp hnv with rfl | hmem2
        · have hsound := paramSplits_mem_sound s pr hmem
          exact ⟨hsound.1, hsound.2⟩
        · exact ih pr.2 ps' nv htc hmem2
    | wild =>
      simp only [tokCaptures] at h
      obtain ⟨r, hmem, hr⟩ := findSome_eq_some h
      exact ih r ps nv hr hnv

/-! Compiling the two template shapes of the claim. -/

theorem convert_template (pre name post : List Char)
    (hname : name ≠ []) (hw : ∀ c ∈ name, isWordChar c = true)
    (hpre : ∀ c ∈ pre, ¬c = ':' ∧ ¬c = '*')
    (hpost : ∀ c ∈ post, ¬c = ':' ∧ ¬c = '*')
    (hsh : post = [] ∨ ∃ p', post = '/' :: p') :
    convertPathToRegex (String.mk (pre ++ ':' :: (name ++ post)))
      = (pre.map RegTok.lit ++ RegTok.param (String.mk name) :: post.map RegTok.lit,
         true) := by
  obtain ⟨a0, as, rfl⟩ : ∃ a0 as, name = a0 :: as := by
    cases name with
    | nil => exact absurd rfl hname
    | cons a0 as => exact ⟨a0, as, rfl⟩
  have htw : takeWordRun ((a0 :: as) ++ post) = (a0 :: as, post) := by
    apply takeWordRun_word_append _ _ hw
    rcases hsh with rfl | ⟨p', rfl⟩
    · exact Or.inl rfl
    · exact Or.inr ⟨'/', p', rfl, by decide⟩
  have hpl : tokenize post = post.map RegTok.lit := by
    have h := tokenize_lits_append post [] hpost
    rw [List.append_nil] at h
    rw [h, show tokenize [] = [] from rfl, List.append_nil]
  have htok : tokenize (pre ++ ':' :: ((a0 :: as) ++ post))
      = pre.map RegTok.lit ++ RegTok.param (String.mk (a0 :: as)) :: post.map RegTok.lit := by
    rw [tokenize_lits_append pre _ hpre,
      tokenize_cons_colon_run _ _ _ _ htw, hpl]
  simp only [convertPathToRegex]
  rw [htok]
  simp [List.any_append, isParamTok, lits_no_param]

theorem convert_wild (pre : List Char) (hpre : ∀ c ∈ pre, ¬c = ':' ∧ ¬c = '*') :
    convertPathToRegex (String.mk (pre ++ ['*']))
      = (pre.map RegTok.lit ++ [RegTok.wild], false) := by
  have htok : tokenize (pre ++ ['*']) = pre.map RegTok.lit ++ [RegTok.wild] := by
    rw [tokenize_lits_append pre _ hpre]
    rfl
  simp only [convertPathToRegex]
  rw [htok]
  simp [List.any_append, isParamTok, lits_no_param]

/-! Matching the two template shapes against paths of the claimed form. -/

theorem template_match (pre post seg : List Char) (hseg : seg ≠ [])
    (hsl : ∀ c ∈ seg, ¬c = '/') (hsh : post = [] ∨ ∃ p', post = '/' :: p')
    (nm : String) :
    tokMatch (pre.map RegTok.lit ++ RegTok.param nm :: post.map RegTok.lit)
      (pre ++ (seg ++ post)) = true := by
  rw [tokMatch_lits]
  simp only [tokMatch]
  rw [List.any_eq_true]
  obtain ⟨rest, heq⟩ := paramSplits_shape seg post hseg hsl hsh
  refine ⟨(seg, post), by rw [heq]; exact List.mem_cons_self _ _, ?_⟩
  dsimp only
  have h := tokMatch_lits post [] []
  rw [List.append_nil, List.append_nil] at h
  rw [h]
  rfl

theorem template_captures (pre post seg : List Char) (hseg : seg ≠ [])
    (hsl : ∀ c ∈ seg, ¬c = '/') (hsh : post = [] ∨ ∃ p', post = '/' :: p')
    (nm : String) :
    tokCaptures (pre.map RegTok.lit ++ RegTok.param nm :: post.map RegTok.lit)
      (pre ++ (seg ++ post)) = some [(nm, String.mk seg)] := by
  rw [tokCaptures_lits]
  simp only [tokCaptures]
  obtain ⟨rest, heq⟩ := paramSplits_shape seg post hseg hsl hsh
  rw [heq]
  apply findSome_cons_of_some
  dsimp only
  have h := tokCaptures_lits post [] []
  rw [List.append_nil, List.append_nil] at h
  rw [h]
  rfl

theorem wild_match_suffix (pre rest : List Char) :
    tokMatch (pre.map RegTok.lit ++ [RegTok.wild]) (pre ++ rest) = true := by
  rw [tokMatch_lits]
  simp only [tokMatch]
  rw [List.any_eq_true]
  refine ⟨[], ?_, rfl⟩
  simp only [wildSplits]
  rw [List.mem_map]
  refine ⟨0, ?_, ?_⟩
  · rw [List.mem_range]
    omega
  · rw [Nat.sub_zero, List.drop_length]

theorem findDynEntry_first (dyns1 : List (List RegTok × Nat × Bool))
    (d : List RegTok × Nat × Bool) (dyns2 : List (List RegTok × Nat × Bool))
    (path : List Char)
    (hnone : ∀ d' ∈ dyns1, tokMatch d'.1 path = false)
    (hd : tokMatch d.1 path = true) :
    findDynEntry (dyns1 ++ d :: dyns2) path
      = some (d.2.1, if d.2.2 then (tokCaptures d.1 path).getD [] else []) := by
  induction dyns1 with
  | nil =>
    rw [List.nil_append]
    rw [findDynEntry, List.findSome?]
    rw [if_pos hd]
  | cons x xs ih =>
    have hx : tokMatch x.1 path = false := hnone x (List.mem_cons_self x xs)
    rw [List.cons_append]
    rw [findDynEntry, List.findSome?]
    rw [if_neg (by rw [hx]; exact Bool.false_ne_true)]
    exact ih fun d' hm => hnone d' (List.mem_cons_of_mem x hm)

theorem findDynEntry_single (d : List RegTok × Nat × Bool) (path : List Char)
    (hd : tokMatch d.1 path = true) :
    findDynEntry [d] path
      = some (d.2.1, if d.2.2 then (tokCaptures d.1 path).getD [] else []) := by
  have h := findDynEntry_first [] d [] path (by intro d' h'; simp at h') hd
  rwa [List.nil_append] at h

theorem findDynEntry_none_of_all (dyns : List (List RegTok × Nat × Bool))
    (path : List Char)
    (hnone : ∀ d ∈ dyns, tokMatch d.1 path = false) :
    findDynEntry dyns path = none := by
  induction dyns with
  | nil => rfl
  | cons x xs ih =>
    have hx : tokMatch x.1 path = false := hnone x (List.mem_cons_self x xs)
    rw [findDynEntry, List.findSome?]
    rw [if_neg (by rw [hx]; exact Bool.false_ne_true)]
    exact ih fun d hm => hnone d (List.mem_cons_of_mem x hm)

/-! ## Claim theorems -/

/-- C6: the chain built by the ServeHTTP loop wraps right to left so the
first middleware is outermost.  For pre/post middlewares A, B, C around
handler H the execution order is pre A, pre B, pre C, H, post C, post B,
post A; a short-circuiting middleware in the middle stops everything
further inward (the chain value does not depend on the inner middleware
or the handler) while the post-logic of the already-entered outer
middleware still runs.  The last conjunct exhibits the order on an event
trace. -/
theorem c6_chain_order :
    (∀ (σ : Type) (pa qa pb qb pc qc hh : σ → σ) (x : σ),
      buildChain [wrapStep pa qa, wrapStep pb qb, wrapStep pc qc] hh x
        = qa (qb (qc (hh (pc (pb (pa x))))))) ∧
    (∀ (σ : Type) (pa qa body : σ → σ) (inner : Step σ) (hh : Sink σ) (x : σ),
      buildChain [wrapStep pa qa, scStep body, inner] hh x = qa (body (pa x))) ∧
    (buildChain [wrapStep (fun l => l ++ ["A.pre"]) (fun l => l ++ ["A.post"]),
                 wrapStep (fun l => l ++ ["B.pre"]) (fun l => l ++ ["B.post"]),
                 wrapStep (fun l => l ++ ["C.pre"]) (fun l => l ++ ["C.post"])]
        (fun l => l ++ ["H"]) []
      = ["A.pre", "B.pre", "C.pre", "H", "C.post", "B.post", "A.post"]) :=
  ⟨fun _ _ _ _ _ _ _ _ _ => rfl, fun _ _ _ _ _ _ _ => rfl, rfl⟩

/-- C7: Fork returns a branch whose path is the parent path concatenated
with the prefix, except that the literal slash prefix is treated as the
empty string, and whose steps are the parent steps followed by the new
ones.  The scenario conjunct: forking root with step L, forking /api
with step A, then registering GET /ping stores the steps in order L, A.
-/
theorem c7_fork :
    (∀ (St : Type) (b : Branch St) (p : String) (s : List St),
      Branch.Fork b p s = ⟨b.path ++ (if p = "/" then "" else p), b.steps ++ s⟩) ∧
    (∀ (St Sk : Type) (stepL stepA : St) (sk : Sk),
      (Branch.Fork (rootBranch : Branch St) "/" [stepL]).path = "" ∧
      (Branch.Fork (rootBranch : Branch St) "/" [stepL]).steps = [stepL] ∧
      (Branch.Fork (Branch.Fork (rootBranch : Branch St) "/" [stepL]) "/api" [stepA]).path = "/api" ∧
      (Branch.Fork (Branch.Fork (rootBranch : Branch St) "/" [stepL]) "/api" [stepA]).steps = [stepL, stepA] ∧
      getStreamMethodsForPath
        (Branch.Stream (emptyFlow : Flow St Sk)
          (Branch.Fork (Branch.Fork rootBranch "/" [stepL]) "/api" [stepA]) "GET" "/ping" [] sk).1
        "/api/ping"
        = some (⟨some ⟨[stepL, stepA], sk⟩, none⟩, [])) := by
  constructor
  · intro St b p s
    rfl
  · intro St Sk stepL stepA sk
    refine ⟨rfl, rfl, rfl, rfl, rfl⟩

/-- C10: registering with a method other than GET and POST panics inside
the method switch, before the streamMethods record is mutated or linked
into either registry, so the route table is returned exactly unchanged
(the false flag models the panic), for every prior table state. -/
theorem c10_bad_method :
    ∀ (St Sk : Type) (f : Flow St Sk) (b : Branch St) (method path : String)
      (steps : List St) (sink : Sk),
      method ≠ "GET" → method ≠ "POST" →
      Branch.Stream f b method path steps sink = (f, false) := by
  intro St Sk f b method path steps sink hg hp
  simp [Branch.Stream, setMethod, hg, hp]

/-- C10 witness: DELETE registration on a table that already holds a
RouteGroup for the same path leaves the table exactly unchanged. -/
theorem c10_bad_method_witness :
    Branch.Stream exLogin rootBranch "DELETE" "/login" [] 9 = (exLogin, false) :=
  c10_bad_method Nat Nat exLogin rootBranch "DELETE" "/login" [] 9
    (by decide) (by decide)

/-- C9: a registration is classified dynamic exactly when the original
subpath fragment contains a colon or a star; the branch prefix plays no
role in the test (the guard mentions only the subpath), while the
compiled pattern and the stored static key are built from the fully
prefixed final path. -/
theorem c9_classification :
    ∀ (St Sk : Type) (f : Flow St Sk) (b : Branch St) (method path : String)
      (steps : List St) (sink : Sk) (setter : StreamMethods St Sk → StreamMethods St Sk),
      setMethod method ⟨b.steps ++ steps, sink⟩ = some setter →
      ((path.data.contains ':' || path.data.contains '*') = true →
        (Branch.Stream f b method path steps sink).1.streams = f.streams ∧
        (Branch.Stream f b method path steps sink).1.dynamicStreams
          = f.dynamicStreams ++ [((convertPathToRegex (b.path ++ path)).1,
              (mapLookup f.streams (b.path ++ path)).getD f.heap.length,
              (convertPathToRegex (b.path ++ path)).2)]) ∧
      ((path.data.contains ':' || path.data.contains '*') = false →
        (Branch.Stream f b method path steps sink).1.dynamicStreams = f.dynamicStreams ∧
        (Branch.Stream f b method path steps sink).1.streams
          = mapInsert f.streams (b.path ++ path)
              ((mapLookup f.streams (b.path ++ path)).getD f.heap.length)) := by
  intro St Sk f b method path steps sink setter hset
  constructor
  · intro hcl
    simp only [Branch.Stream, hset]
    rw [if_pos hcl]
    exact ⟨rfl, rfl⟩
  · intro hcl
    simp only [Branch.Stream, hset]
    rw [if_neg (by rw [hcl]; exact Bool.false_ne_true)]
    exact ⟨rfl, rfl⟩

/-- C1 counterexample: the path /login resolves to a registered
RouteGroup whose GET entry is missing (only POST was registered), yet
dispatching GET /login reports NotFound, not MethodNotAllowed. -/
theorem c1_counterexample :
    getStreamMethodsForPath exLogin "/login" = some (⟨none, some ⟨[], 5⟩⟩, []) ∧
    serveHTTP exLogin "GET" "/login" = DispatchResult.notFound ∧
    serveHTTP exLogin "GET" "/login" ≠ DispatchResult.methodNotAllowed := by
  refine ⟨by decide, by decide, by decide⟩

/-- C1 amended: when the path resolves to a RouteGroup, a method other
than GET and POST is reported as MethodNotAllowed (distinct from
NotFound); a GET or POST request whose entry is missing from the group
is reported as NotFound, the same condition as for an unmatched path. -/
theorem c1_method_dispatch :
    (∀ (St Sk : Type) (f : Flow St Sk) (path : String) (m : StreamMethods St Sk)
       (params : List (String × String)) (method : String),
       getStreamMethodsForPath f path = some (m, params) →
       method ≠ "GET" → method ≠ "POST" →
       serveHTTP f method path = DispatchResult.methodNotAllowed) ∧
    (∀ (St Sk : Type) (f : Flow St Sk) (path : String) (m : StreamMethods St Sk)
       (params : List (String × String)),
       getStreamMethodsForPath f path = some (m, params) →
       (m.GET = none → serveHTTP f "GET" path = DispatchResult.notFound) ∧
       (m.POST = none → serveHTTP f "POST" path = DispatchResult.notFound)) ∧
    (∀ (St Sk : Type),
       (DispatchResult.methodNotAllowed : DispatchResult St Sk) ≠ DispatchResult.notFound) := by
  refine ⟨?_, ?_, ?_⟩
  · intro St Sk f path m params method hres hg hp
    simp [serveHTTP, hres, hg, hp]
  · intro St Sk f path m params hres
    constructor
    · intro hget
      simp [serveHTTP, hres, hget]
    · intro hpost
      simp [serveHTTP, hres, hpost]
  · intro St Sk h
    exact DispatchResult.noConfusion h

/-- C1 witness: concrete dispatches against the POST-only /login table:
DELETE is MethodNotAllowed, GET and POST behave per the amended claim. -/
theorem c1_method_dispatch_witness :
    serveHTTP exLogin "DELETE" "/login" = DispatchResult.methodNotAllowed ∧
    serveHTTP exLogin "GET" "/login" = DispatchResult.notFound := by
  constructor
  · exact c1_method_dispatch.1 Nat Nat exLogin "/login" ⟨none, some ⟨[], 5⟩⟩ []
      "DELETE" (by decide) (by decide) (by decide)
  · exact (c1_method_dispatch.2.1 Nat Nat exLogin "/login" ⟨none, some ⟨[], 5⟩⟩ []
      (by decide)).1 (by decide)

/-- C2 counterexample: GET then POST registered for the dynamic path
/user/:id create two separate dynamic RouteGroups (the static map stays
empty), so resolving /user/42 always returns the first group and
selecting POST reports NotFound instead of the registered handler 2. -/
theorem c2_counterexample :
    exUserBoth.streams = [] ∧
    exUserBoth.dynamicStreams.length = 2 ∧
    serveHTTP exUserBoth "GET" "/user/42" = DispatchResult.ok ⟨[], 1⟩ [("id", "42")] ∧
    serveHTTP exUserBoth "POST" "/user/42" = DispatchResult.notFound := by
  refine ⟨by decide, by decide, by decide, by decide⟩

/-- C2 amended: for a static-classified subpath, both registrations
share the single RouteGroup keyed by the final path and resolving then
selecting either method yields the corresponding handler.  For a
dynamic-classified subpath registered on a fresh flow, each registration
appends its own RouteGroup to the dynamic list and never writes the
static map; resolution returns the first-appended group, so the GET
handler of the first registration is reachable while selecting POST
reports NotFound. -/
theorem c2_both_methods :
    (∀ (St Sk : Type) (b : Branch St) (p : String) (e1 e2 : List St) (s1 s2 : Sk)
       (f : Flow St Sk),
       (p.data.contains ':' || p.data.contains '*') = false →
       (∀ a, mapLookup f.streams (b.path ++ p) = some a → a < f.heap.length) →
       getStreamMethodsForPath
         (Branch.Stream (Branch.Stream f b "GET" p e1 s1).1 b "POST" p e2 s2).1
         (b.path ++ p)
         = some (⟨some ⟨b.steps ++ e1, s1⟩, some ⟨b.steps ++ e2, s2⟩⟩, [])) ∧
    (∀ (St Sk : Type) (b : Branch St) (p : String) (e1 e2 : List St) (s1 s2 : Sk)
       (q : String),
       (p.data.contains ':' || p.data.contains '*') = true →
       tokMatch (convertPathToRegex (b.path ++ p)).1 q.data = true →
       (Branch.Stream (Branch.Stream (emptyFlow : Flow St Sk) b "GET" p e1 s1).1
          b "POST" p e2 s2).1.streams = [] ∧
       serveHTTP (Branch.Stream (Branch.Stream (emptyFlow : Flow St Sk) b "GET" p e1 s1).1
          b "POST" p e2 s2).1 "GET" q
         = DispatchResult.ok ⟨b.steps ++ e1, s1⟩
             (if (convertPathToRegex (b.path ++ p)).2 then
               (tokCaptures (convertPathToRegex (b.path ++ p)).1 q.data).getD []
              else []) ∧
       serveHTTP (Branch.Stream (Branch.Stream (emptyFlow : Flow St Sk) b "GET" p e1 s1).1
          b "POST" p e2 s2).1 "POST" q
         = DispatchResult.notFound) := by
  constructor
  · intro St Sk b p e1 e2 s1 s2 f hcl hwf
    cases hlk : mapLookup f.streams (b.path ++ p) with
    | some a =>
      have ha : a < f.heap.length := hwf a hlk
      rw [stream_static_some f b "GET" p e1 s1 _ a (setMethod_get _) hcl hlk]
      rw [stream_static_some _ b "POST" p e2 s2 _ a (setMethod_post _) hcl
        (mapLookup_insert_self _ _ _)]
      simp only [getStreamMethodsForPath, mapLookup_insert_self]
      rw [heapGet_set_self _ _ _ (by rw [length_set_eq]; exact ha),
        heapGet_set_self _ _ _ ha]
    | none =>
      rw [stream_static_none f b "GET" p e1 s1 _ (setMethod_get _) hcl hlk]
      rw [stream_static_some _ b "POST" p e2 s2 _ f.heap.length (setMethod_post _) hcl
        (mapLookup_insert_self _ _ _)]
      simp only [getStreamMethodsForPath, mapLookup_insert_self]
      rw [heapGet_set_self _ _ _
          (by rw [length_set_eq, List.length_append, List.length_singleton]; omega),
        heapGet_set_self _ _ _
          (by rw [List.length_append, List.length_singleton]; omega)]
  · intro St Sk b p e1 e2 s1 s2 q hcl hmatch
    have h1 : Branch.Stream (emptyFlow : Flow St Sk) b "GET" p e1 s1
        = (⟨[], [((convertPathToRegex (b.path ++ p)).1, 0, (convertPathToRegex (b.path ++ p)).2)],
            [⟨some ⟨b.steps ++ e1, s1⟩, none⟩]⟩, true) := by
      rw [stream_dyn_none emptyFlow b "GET" p e1 s1 _ (setMethod_get _) hcl rfl]
      rfl
    have h2 : Branch.Stream
        (⟨[], [((convertPathToRegex (b.path ++ p)).1, 0, (convertPathToRegex (b.path ++ p)).2)],
          [⟨some ⟨b.steps ++ e1, s1⟩, none⟩]⟩ : Flow St Sk) b "POST" p e2 s2
        = (⟨[], [((convertPathToRegex (b.path ++ p)).1, 0, (convertPathToRegex (b.path ++ p)).2),
                 ((convertPathToRegex (b.path ++ p)).1, 1, (convertPathToRegex (b.path ++ p)).2)],
            [⟨some ⟨b.steps ++ e1, s1⟩, none⟩, ⟨none, some ⟨b.steps ++ e2, s2⟩⟩]⟩, true) := by
      rw [stream_dyn_none
        (⟨[], [((convertPathToRegex (b.path ++ p)).1, 0, (convertPathToRegex (b.path ++ p)).2)],
          [⟨some ⟨b.steps ++ e1, s1⟩, none⟩]⟩ : Flow St Sk) b "POST" p e2 s2 _
        (setMethod_post _) hcl rfl]
      rfl
    rw [h1, h2]
    refine ⟨rfl, ?_, ?_⟩ <;>
      simp [serveHTTP, getStreamMethodsForPath, mapLookup, findDynEntry,
        List.findSome?, hmatch, heapGet]

/-- C2 witness: the static half at GET and POST /ping on the empty flow,
and the dynamic half at /user/:id resolved against /user/42. -/
theorem c2_both_methods_witness :
    (getStreamMethodsForPath
       (Branch.Stream (Branch.Stream (emptyFlow : Flow Nat Nat) rootBranch "GET" "/ping" [] 1).1
         rootBranch "POST" "/ping" [] 2).1 ("" ++ "/ping")
       = some (⟨some ⟨[], 1⟩, some ⟨[], 2⟩⟩, [])) ∧
    (serveHTTP exUserBoth "POST" "/user/42" = DispatchResult.notFound) := by
  constructor
  · exact c2_both_methods.1 Nat Nat rootBranch "/ping" [] [] 1 2 emptyFlow
      (by decide) (by intro a ha; simp [mapLookup, emptyFlow] at ha)
  · exact (c2_both_methods.2 Nat Nat rootBranch "/user/:id" [] [] 1 2 "/user/42"
      (by decide) (by decide)).2.2

/-- C3 counterexample: a static entry keyed by the literal string /x/:id
holds handler 1; a later dynamic registration of GET /x/:id mutates the
RouteGroup shared with that static entry, so the static entry then
resolves to handler 2 — the previously registered static per-method
handler did not stay unchanged. -/
theorem c3_counterexample :
    serveHTTP exShadowStatic "GET" "/x/:id" = DispatchResult.ok ⟨[], 1⟩ [] ∧
    serveHTTP exShadowBoth "GET" "/x/:id" = DispatchResult.ok ⟨[], 2⟩ [] ∧
    mapLookup exShadowBoth.streams "/x/:id" = mapLookup exShadowStatic.streams "/x/:id" := by
  refine ⟨by decide, by decide, by decide⟩

/-- C3 amended: a dynamic registration never removes or re-keys a static
entry (the static map is returned unchanged), but when the static map
already holds the final path the dynamic registration reuses that
address, so the appended dynamic entry aliases the static RouteGroup and
the registered method entry of the shared group is overwritten in place.
A static registration performed when the key is absent from the static
map (as after a purely dynamic registration, which never inserts a key)
writes a fresh entry into the static map and leaves the dynamic list
unchanged. -/
theorem c3_registry_aliasing :
    (∀ (St Sk : Type) (f : Flow St Sk) (b : Branch St) (method p : String)
       (steps : List St) (sink : Sk) (setter : StreamMethods St Sk → StreamMethods St Sk)
       (a : Nat),
       setMethod method ⟨b.steps ++ steps, sink⟩ = some setter →
       (p.data.contains ':' || p.data.contains '*') = true →
       mapLookup f.streams (b.path ++ p) = some a →
       Branch.Stream f b method p steps sink
         = (⟨f.streams,
             f.dynamicStreams ++ [((convertPathToRegex (b.path ++ p)).1, a,
               (convertPathToRegex (b.path ++ p)).2)],
             f.heap.set a (setter (heapGet f.heap a))⟩, true)) ∧
    (∀ (St Sk : Type) (f : Flow St Sk) (b : Branch St) (method p : String)
       (steps : List St) (sink : Sk) (setter : StreamMethods St Sk → StreamMethods St Sk),
       setMethod method ⟨b.steps ++ steps, sink⟩ = some setter →
       (p.data.contains ':' || p.data.contains '*') = false →
       mapLookup f.streams (b.path ++ p) = none →
       Branch.Stream f b method p steps sink
         = (⟨mapInsert f.streams (b.path ++ p) f.heap.length,
             f.dynamicStreams,
             (f.heap ++ [(⟨none, none⟩ : StreamMethods St Sk)]).set f.heap.length
            (setter ⟨none, none⟩)⟩, true)) := by
  constructor
  · intro St Sk f b method p steps sink setter a hset hcl hlk
    exact stream_dyn_some f b method p steps sink setter a hset hcl hlk
  · intro St Sk f b method p steps sink setter hset hcl hlk
    exact stream_static_none f b method p steps sink setter hset hcl hlk

/-- C3 witness: the aliasing half applied to the shadowed /x/:id table
and the static-after-dynamic half applied after a dynamic registration.
-/
theorem c3_registry_aliasing_witness :
    (Branch.Stream exShadowStatic rootBranch "GET" "/x/:id" [] 2
       = (⟨exShadowStatic.streams,
           exShadowStatic.dynamicStreams ++ [((convertPathToRegex ("" ++ "/x/:id")).1, 0,
             (convertPathToRegex ("" ++ "/x/:id")).2)],
           exShadowStatic.heap.set 0
             ((fun m => { m with GET := some ⟨[], 2⟩ }) (heapGet exShadowStatic.heap 0))⟩,
          true)) ∧
    (Branch.Stream exUserBoth (Branch.Fork (rootBranch : Branch Nat) "/user/:id" []) "GET" "" [] 3
       = (⟨mapInsert exUserBoth.streams ((Branch.Fork (rootBranch : Branch Nat) "/user/:id" []).path ++ "")
             exUserBoth.heap.length,
           exUserBoth.dynamicStreams,
           (exUserBoth.heap ++ [(⟨none, none⟩ : StreamMethods Nat Nat)]).set
             exUserBoth.heap.length
             ((fun m => { m with GET := some ⟨[], 3⟩ })
               (⟨none, none⟩ : StreamMethods Nat Nat))⟩, true)) := by
  constructor
  · exact c3_registry_aliasing.1 Nat Nat exShadowStatic rootBranch "GET" "/x/:id" [] 2
      (fun m => { m with GET := some ⟨[], 2⟩ }) 0 rfl (by decide) (by decide)
  · exact c3_registry_aliasing.2 Nat Nat exUserBoth (Branch.Fork (rootBranch : Branch Nat) "/user/:id" [])
      "GET" "" [] 3 (fun m => { m with GET := some ⟨[], 3⟩ }) rfl (by decide) (by decide)

/-- C4: resolution checks the static map first and, on an exact hit,
returns the static RouteGroup with empty params for every content of the
dynamic list (so no dynamic pattern is consulted); otherwise the dynamic
list is scanned in order and the first matching pattern wins even when a
later pattern also matches; when neither registry matches, resolution
reports not found. -/
theorem c4_resolve_order :
    (∀ (St Sk : Type) (streams : List (String × Nat))
       (dyns : List (List RegTok × Nat × Bool)) (heap : List (StreamMethods St Sk))
       (path : String) (a : Nat),
       mapLookup streams path = some a →
       getStreamMethodsForPath (⟨streams, dyns, heap⟩ : Flow St Sk) path
         = some (heapGet heap a, [])) ∧
    (∀ (St Sk : Type) (streams : List (String × Nat))
       (dyns1 : List (List RegTok × Nat × Bool)) (d : List RegTok × Nat × Bool)
       (dyns2 : List (List RegTok × Nat × Bool)) (heap : List (StreamMethods St Sk))
       (path : String),
       mapLookup streams path = none →
       (∀ d' ∈ dyns1, tokMatch d'.1 path.data = false) →
       tokMatch d.1 path.data = true →
       getStreamMethodsForPath (⟨streams, dyns1 ++ d :: dyns2, heap⟩ : Flow St Sk) path
         = some (heapGet heap d.2.1,
             if d.2.2 then (tokCaptures d.1 path.data).getD [] else [])) ∧
    (∀ (St Sk : Type) (streams : List (String × Nat))
       (dyns : List (List RegTok × Nat × Bool)) (heap : List (StreamMethods St Sk))
       (path : String),
       mapLookup streams path = none →
       (∀ d ∈ dyns, tokMatch d.1 path.data = false) →
       getStreamMethodsForPath (⟨streams, dyns, heap⟩ : Flow St Sk) path = none) := by
  refine ⟨?_, ?_, ?_⟩
  · intro St Sk streams dyns heap path a hlk
    simp only [getStreamMethodsForPath, hlk]
  · intro St Sk streams dyns1 d dyns2 heap path hlk hnone hd
    simp only [getStreamMethodsForPath, hlk]
    rw [findDynEntry_first dyns1 d dyns2 path.data hnone hd]
    rfl
  · intro St Sk streams dyns heap path hlk hnone
    simp only [getStreamMethodsForPath, hlk]
    rw [findDynEntry_none_of_all dyns path.data hnone]
    rfl

/-- C4 witness: a static hit for /ping ignores a dynamic list whose
pattern also matches; with the static map empty and two dynamic patterns
both matching /a/7, the earlier one (group address 0, with params) wins;
a path matching nothing resolves to none. -/
theorem c4_resolve_order_witness :
    (getStreamMethodsForPath
       (⟨[("/ping", 1)],
         [(tokenize "/ping".data, 0, false)],
         [⟨some ⟨[], 9⟩, none⟩, ⟨some ⟨[], 1⟩, none⟩]⟩ : Flow Nat Nat) "/ping"
       = some (⟨some ⟨[], 1⟩, none⟩, [])) ∧
    (getStreamMethodsForPath
       (⟨[], [(tokenize "/a/:x".data, 0, true), (tokenize "/a/*".data, 1, false)],
         [⟨some ⟨[], 3⟩, none⟩, ⟨some ⟨[], 4⟩, none⟩]⟩ : Flow Nat Nat) "/a/7"
       = some (⟨some ⟨[], 3⟩, none⟩, [("x", "7")])) ∧
    (getStreamMethodsForPath
       (⟨[], [(tokenize "/a/:x".data, 0, true)],
         [⟨some ⟨[], 3⟩, none⟩]⟩ : Flow Nat Nat) "/b"
       = none) := by
  refine ⟨?_, ?_, ?_⟩
  · exact c4_resolve_order.1 Nat Nat [("/ping", 1)] [(tokenize "/ping".data, 0, false)]
      [⟨some ⟨[], 9⟩, none⟩, ⟨some ⟨[], 1⟩, none⟩] "/ping" 1 (by decide)
  · have h := c4_resolve_order.2.1 Nat Nat [] [] (tokenize "/a/:x".data, 0, true)
      [(tokenize "/a/*".data, 1, false)]
      [⟨some ⟨[], 3⟩, none⟩, ⟨some ⟨[], 4⟩, none⟩] "/a/7"
      (by decide) (by intro d' hm; simp at hm) (by decide)
    simp only [List.nil_append] at h
    rw [h]
    decide
  · exact c4_resolve_order.2.2 Nat Nat [] [(tokenize "/a/:x".data, 0, true)]
      [⟨some ⟨[], 3⟩, none⟩] "/b" (by decide)
      (by intro d hm; simp at hm; rw [hm]; decide)

/-- C8: ClearSteps replaces exactly the middleware accumulator of the
branch value it is applied to (the path is kept and no route table state
is touched); a route registered through the branch beforehand keeps the
middleware it was registered with, while a registration made after
ClearSteps sees an empty inherited list.  Branches are separate values
(Fork copies the parent accumulator), so other branch values are
untouched by construction. -/
theorem c8_clear_steps :
    ∀ (St Sk : Type) (b : Branch St) (s1 s2 : String) (e1 e2 : List St) (k1 k2 : Sk),
      (s1.data.contains ':' || s1.data.contains '*') = false →
      (s2.data.contains ':' || s2.data.contains '*') = false →
      b.path ++ s1 ≠ b.path ++ s2 →
      Branch.ClearSteps b = ⟨b.path, []⟩ ∧
      (Branch.ClearSteps b).steps = [] ∧
      getStreamMethodsForPath
        (Branch.Stream (Branch.Stream (emptyFlow : Flow St Sk) b "GET" s1 e1 k1).1
          (Branch.ClearSteps b) "GET" s2 e2 k2).1 (b.path ++ s1)
        = some (⟨some ⟨b.steps ++ e1, k1⟩, none⟩, []) ∧
      getStreamMethodsForPath
        (Branch.Stream (Branch.Stream (emptyFlow : Flow St Sk) b "GET" s1 e1 k1).1
          (Branch.ClearSteps b) "GET" s2 e2 k2).1 (b.path ++ s2)
        = some (⟨some ⟨e2, k2⟩, none⟩, []) := by
  intro St Sk b s1 s2 e1 e2 k1 k2 hcl1 hcl2 hne
  have h1 : Branch.Stream (emptyFlow : Flow St Sk) b "GET" s1 e1 k1
      = (⟨[(b.path ++ s1, 0)], [], [⟨some ⟨b.steps ++ e1, k1⟩, none⟩]⟩, true) := by
    rw [stream_static_none emptyFlow b "GET" s1 e1 k1 _ (setMethod_get _) hcl1 rfl]
    rfl
  have hmid : Branch.Stream
      (⟨[(b.path ++ s1, 0)], [], [⟨some ⟨b.steps ++ e1, k1⟩, none⟩]⟩ : Flow St Sk)
      (Branch.ClearSteps b) "GET" s2 e2 k2
      = (⟨mapInsert [(b.path ++ s1, 0)] (b.path ++ s2) 1, [],
          [⟨some ⟨b.steps ++ e1, k1⟩, none⟩, ⟨some ⟨e2, k2⟩, none⟩]⟩, true) := by
    rw [stream_static_none
      (⟨[(b.path ++ s1, 0)], [], [⟨some ⟨b.steps ++ e1, k1⟩, none⟩]⟩ : Flow St Sk)
      (Branch.ClearSteps b) "GET" s2 e2 k2 _ (setMethod_get _) hcl2
      (mapLookup_single_ne hne 0)]
    rfl
  have h2 : Branch.Stream
      (⟨[(b.path ++ s1, 0)], [], [⟨some ⟨b.steps ++ e1, k1⟩, none⟩]⟩ : Flow St Sk)
      (Branch.ClearSteps b) "GET" s2 e2 k2
      = (⟨[(b.path ++ s1, 0), (b.path ++ s2, 1)], [],
          [⟨some ⟨b.steps ++ e1, k1⟩, none⟩, ⟨some ⟨e2, k2⟩, none⟩]⟩, true) := by
    rw [hmid, mapInsert_single_ne hne 0 1]
  rw [h1, h2]
  refine ⟨rfl, rfl, ?_, ?_⟩
  · simp [getStreamMethodsForPath, mapLookup, heapGet, hne]
  · simp [getStreamMethodsForPath, mapLookup, heapGet, hne]

/-- C8 witness: a branch at /api with inherited step 7: before ClearSteps
a registered route bakes in step 7; after ClearSteps the next route sees
no inherited steps. -/
theorem c8_clear_steps_witness :
    Branch.ClearSteps (⟨"/api", [7]⟩ : Branch Nat) = ⟨"/api", []⟩ ∧
    getStreamMethodsForPath
      (Branch.Stream (Branch.Stream (emptyFlow : Flow Nat Nat) ⟨"/api", [7]⟩ "GET" "/ping" [8] 1).1
        (Branch.ClearSteps ⟨"/api", [7]⟩) "GET" "/pong" [9] 2).1 ("/api" ++ "/ping")
      = some (⟨some ⟨[7, 8], 1⟩, none⟩, []) ∧
    getStreamMethodsForPath
      (Branch.Stream (Branch.Stream (emptyFlow : Flow Nat Nat) ⟨"/api", [7]⟩ "GET" "/ping" [8] 1).1
        (Branch.ClearSteps ⟨"/api", [7]⟩) "GET" "/pong" [9] 2).1 ("/api" ++ "/pong")
      = some (⟨some ⟨[9], 2⟩, none⟩, []) := by
  have h := c8_clear_steps Nat Nat ⟨"/api", [7]⟩ "/ping" "/pong" [8] [9] 1 2
    (by decide) (by decide) (by decide)
  exact ⟨h.1, h.2.2.1, h.2.2.2⟩

/-- C5: for a compiled template made of literal text, one colon
parameter and a trailing literal tail (empty or slash-led), resolving a
path of the matching shape binds the parameter name to the matched
segment; every value captured by any compiled pattern is nonempty and
free of slashes; and a template ending in a star matches the whole
remainder of the path, slashes included, while binding no name. -/
theorem c5_path_params :
    (∀ (St Sk : Type) (streams : List (String × Nat)) (heap : List (StreamMethods St Sk))
       (addr : Nat) (pre name post seg : List Char),
       name ≠ [] → (∀ c ∈ name, isWordChar c = true) →
       (∀ c ∈ pre, ¬c = ':' ∧ ¬c = '*') →
       (∀ c ∈ post, ¬c = ':' ∧ ¬c = '*') →
       (post = [] ∨ ∃ p', post = '/' :: p') →
       seg ≠ [] → (∀ c ∈ seg, ¬c = '/') →
       mapLookup streams (String.mk (pre ++ (seg ++ post))) = none →
       getStreamMethodsForPath
         (⟨streams,
           [((convertPathToRegex (String.mk (pre ++ ':' :: (name ++ post)))).1, addr,
             (convertPathToRegex (String.mk (pre ++ ':' :: (name ++ post)))).2)],
           heap⟩ : Flow St Sk)
         (String.mk (pre ++ (seg ++ post)))
         = some (heapGet heap addr, [(String.mk name, String.mk seg)])) ∧
    (∀ (ts : List RegTok) (s : List Char) (ps : List (String × String))
       (nv : String × String),
       tokCaptures ts s = some ps → nv ∈ ps →
       nv.2.data ≠ [] ∧ ∀ c ∈ nv.2.data, ¬c = '/') ∧
    (∀ (St Sk : Type) (streams : List (String × Nat)) (heap : List (StreamMethods St Sk))
       (addr : Nat) (pre rest : List Char),
       (∀ c ∈ pre, ¬c = ':' ∧ ¬c = '*') →
       mapLookup streams (String.mk (pre ++ rest)) = none →
       getStreamMethodsForPath
         (⟨streams,
           [((convertPathToRegex (String.mk (pre ++ ['*']))).1, addr,
             (convertPathToRegex (String.mk (pre ++ ['*']))).2)], heap⟩ : Flow St Sk)
         (String.mk (pre ++ rest))
         = some (heapGet heap addr, [])) := by
  refine ⟨?_, tokCaptures_sound, ?_⟩
  · intro St Sk streams heap addr pre name post seg hname hw hpre hpost hsh hseg hsl hlk
    have hconv := convert_template pre name post hname hw hpre hpost hsh
    simp only [getStreamMethodsForPath, hlk]
    rw [hconv]
    dsimp only
    rw [findDynEntry_single
      (pre.map RegTok.lit ++ RegTok.param (String.mk name) :: post.map RegTok.lit, addr, true)
      (pre ++ (seg ++ post))
      (template_match pre post seg hseg hsl hsh (String.mk name))]
    dsimp only
    rw [if_pos rfl]
    rw [template_captures pre post seg hseg hsl hsh (String.mk name)]
    rfl
  · intro St Sk streams heap addr pre rest hpre hlk
    have hconv := convert_wild pre hpre
    simp only [getStreamMethodsForPath, hlk]
    rw [hconv]
    dsimp only
    rw [findDynEntry_single (pre.map RegTok.lit ++ [RegTok.wild], addr, false)
      (pre ++ rest) (wild_match_suffix pre rest)]
    rfl

/-- C5 witness: the template /u/:id resolved at /u/42 binds id to 42;
the concrete captures of /user/:id at /user/42 are nonempty and
slash-free; the template /files/* matches /files/a/b with no bindings.
-/
theorem c5_path_params_witness :
    (getStreamMethodsForPath
       (⟨[],
         [((convertPathToRegex (String.mk (['/', 'u', '/'] ++ ':' :: (['i', 'd'] ++ [])))).1, 0,
           (convertPathToRegex (String.mk (['/', 'u', '/'] ++ ':' :: (['i', 'd'] ++ [])))).2)],
         [⟨some ⟨[], 3⟩, none⟩]⟩ : Flow Nat Nat)
       (String.mk (['/', 'u', '/'] ++ (['4', '2'] ++ [])))
       = some (heapGet [⟨some ⟨[], 3⟩, none⟩] 0, [(String.mk ['i', 'd'], String.mk ['4', '2'])])) ∧
    ("42".data ≠ [] ∧ ∀ c ∈ "42".data, ¬c = '/') ∧
    (getStreamMethodsForPath
       (⟨[],
         [((convertPathToRegex (String.mk (['/', 'f', '/'] ++ ['*']))).1, 0,
           (convertPathToRegex (String.mk (['/', 'f', '/'] ++ ['*']))).2)],
         [⟨some ⟨[], 4⟩, none⟩]⟩ : Flow Nat Nat)
       (String.mk (['/', 'f', '/'] ++ ['a', '/', 'b']))
       = some (heapGet [⟨some ⟨[], 4⟩, none⟩] 0, [])) := by
  refine ⟨?_, ?_, ?_⟩
  · exact c5_path_params.1 Nat Nat [] [⟨some ⟨[], 3⟩, none⟩] 0 ['/', 'u', '/'] ['i', 'd'] []
      ['4', '2'] (by decide) (by decide) (by decide) (by decide) (Or.inl rfl)
      (by decide) (by decide) (by decide)
  · exact c5_path_params.2.1 (tokenize "/user/:id".data) "/user/42".data
      [("id", "42")] ("id", "42") (by decide) (by decide)
  · exact c5_path_params.2.2 Nat Nat [] [⟨some ⟨[], 4⟩, none⟩] 0 ['/', 'f', '/']
      ['a', '/', 'b'] (by decide) (by decide)

/-- C9 witness: on the empty flow, registering GET /u/:i from the root
is classified dynamic (static map untouched, one dynamic entry compiled
from the final path) and registering GET /ping is classified static. -/
theorem c9_classification_witness :
    ((Branch.Stream (emptyFlow : Flow Nat Nat) rootBranch "GET" "/u/:i" [] 0).1.streams = [] ∧
     (Branch.Stream (emptyFlow : Flow Nat Nat) rootBranch "GET" "/u/:i" [] 0).1.dynamicStreams
       = [((convertPathToRegex ("" ++ "/u/:i")).1,
           (mapLookup ([] : List (String × Nat)) ("" ++ "/u/:i")).getD 0,
           (convertPathToRegex ("" ++ "/u/:i")).2)]) ∧
    ((Branch.Stream (emptyFlow : Flow Nat Nat) rootBranch "GET" "/ping" [] 0).1.dynamicStreams = [] ∧
     (Branch.Stream (emptyFlow : Flow Nat Nat) rootBranch "GET" "/ping" [] 0).1.streams
       = mapInsert [] ("" ++ "/ping")
           ((mapLookup ([] : List (String × Nat)) ("" ++ "/ping")).getD 0)) := by
  constructor
  · have h := (c9_classification Nat Nat emptyFlow rootBranch "GET" "/u/:i" [] 0
      (fun m => { m with GET := some ⟨[], 0⟩ }) rfl).1 (by decide)
    simpa using h
  · have h := (c9_classification Nat Nat emptyFlow rootBranch "GET" "/ping" [] 0
      (fun m => { m with GET := some ⟨[], 0⟩ }) rfl).2 (by decide)
    simpa using h

end FlowHttp
